import Mathlib

/-!
# Verification of the vision-reasoning scripts

A shallow embedding, in Lean 4, of the parts of the `vision-reasoning`
repository that the specification talks about:

* the text-normalization and scoring helpers of `qwen_bird/baseline.py`
  and `qwen_caltech_set/qwen_caltech_set.py`
  (`normalize_text`, `check_accuracy`, `label_in_prediction`,
  `extract_answer_from_tags`);
* the chain-walking hierarchy builders of
  `hierarchical_datasets/caltech_test.py`
  (`build_conceptnet_hierarchy`, `build_wikidata_hierarchy`,
  `build_uby_hierarchy`) and the top-level getters with their
  catch-and-fallback behaviour;
* the WordNet hierarchy functions of `caltech_test.py` and
  `caltech_wordnet.py`;
* the evaluation drivers of `qwen_bird/baseline.py` and
  `qwen_bird_open/baseline.py`;
* the dataset adapters `qwen_caltech_set/caltech101.py` and
  `hierarchical_datasets/flower102.py`.

Python strings are modelled as `List Char`; `str.lower` is modelled at the
ASCII level (the labels and tags handled by these scripts are ASCII).
Calls into external services (HTTP APIs, NLTK, the filesystem, the
multimodal model) are modelled as oracle parameters: arbitrary functions
supplied to the embedded code, universally quantified in the theorems.
Fallible code is modelled with `Except`/`Option`.
-/

/-- Python strings, as lists of characters. -/
abbrev Str : Type := List Char

/-! ## Text normalization (`qwen_bird/baseline.py` lines 16–33,
`qwen_caltech_set/qwen_caltech_set.py` lines 36–56) -/

/-- `str.lower()` restricted to ASCII: uppercase ASCII letters (codepoints
65–90, `A`–`Z`) are mapped 32 codepoints up to the corresponding lowercase
letters, every other character is unchanged. -/
def pyLower (c : Char) : Char :=
  if 65 ≤ c.toNat ∧ c.toNat ≤ 90 then Char.ofNat (c.toNat + 32) else c

/-- The characters matched by the regex class `\s` (ASCII part): space (32),
tab (9), newline (10), vertical tab (11), form feed (12), carriage
return (13). -/
def isPySpace (c : Char) : Bool :=
  c.toNat = 32 || c.toNat = 9 || c.toNat = 10 || c.toNat = 11 || c.toNat = 12 || c.toNat = 13

/-- The characters matched by the regex class `[a-zA-Z]`:
codepoints 97–122 (`a`–`z`) and 65–90 (`A`–`Z`). -/
def isAsciiAlpha (c : Char) : Bool :=
  (97 ≤ c.toNat && c.toNat ≤ 122) || (65 ≤ c.toNat && c.toNat ≤ 90)

/-- A lowercase ASCII letter: codepoints 97–122, `a`–`z`. -/
def isLowerAscii (c : Char) : Bool :=
  97 ≤ c.toNat && c.toNat ≤ 122

/-- `re.sub(r'[^a-zA-Z\s]', ' ', text)`: every character that is neither an
ASCII letter nor whitespace is replaced by a space. -/
def subNonAlphaToSpace (s : Str) : Str :=
  s.map (fun c => if isAsciiAlpha c || isPySpace c then c else ' ')

/-- Helper for `pySplit`; `acc` holds the current word, reversed. -/
def pySplitAux : Str → Str → List Str
  | [], acc => if acc = [] then [] else [acc.reverse]
  | c :: rest, acc =>
    if isPySpace c then
      if acc = [] then pySplitAux rest [] else acc.reverse :: pySplitAux rest []
    else
      pySplitAux rest (c :: acc)

/-- Python `str.split()` with no argument: split on runs of whitespace and
return the nonempty words. -/
def pySplit (s : Str) : List Str := pySplitAux s []

/-- `' '.join(words)`. -/
def spaceJoin : List Str → Str
  | [] => []
  | [w] => w
  | w :: ws => w ++ ' ' :: spaceJoin ws

/-- `normalize_text` of `qwen_bird/baseline.py` (lines 16–20) and
`qwen_caltech_set/qwen_caltech_set.py` (lines 36–40): lower-case, replace
every non-letter non-whitespace character by a space, then re-join the
whitespace-separated words with single spaces. -/
def normalize_text (text : Str) : Str :=
  spaceJoin (pySplit (subNonAlphaToSpace (text.map pyLower)))

/-- `check_accuracy` of `qwen_bird/baseline.py` (lines 27–33): the Python
substring test `normalized_gt in normalized_pred`. -/
def check_accuracy (ground_truth prediction : Str) : Bool :=
  decide (normalize_text ground_truth <:+: normalize_text prediction)

/-- `label_in_prediction` of `qwen_caltech_set/qwen_caltech_set.py`
(lines 42–56): single-word labels are looked up in the prediction's word
list, multi-word labels require all their words to be in that list. -/
def label_in_prediction (label prediction : Str) : Bool :=
  let label_words := pySplit (normalize_text label)
  let pred_words := pySplit (normalize_text prediction)
  if label_words.length = 1 then
    pred_words.contains (label_words.headD [])
  else
    label_words.all (fun w => pred_words.contains w)

/-- Python `str.strip()`: drop leading and trailing whitespace. -/
def pyStrip (s : Str) : Str :=
  ((s.dropWhile isPySpace).reverse.dropWhile isPySpace).reverse

/-- Index of the first occurrence of `pat` in a string, if any. -/
def strFind (pat : Str) : Str → Option Nat
  | [] => if pat.isPrefixOf ([] : Str) then some 0 else none
  | c :: rest =>
    if pat.isPrefixOf (c :: rest) then some 0
    else (strFind pat rest).map (· + 1)

def answerOpenTag : Str := "<answer>".data

def answerCloseTag : Str := "</answer>".data

/-- `extract_answer_from_tags` of `qwen_bird/baseline.py` (lines 22–25):
`re.search(r'<answer>(.*?)</answer>', text, re.DOTALL | re.IGNORECASE)`,
returning the stripped group contents, or `none` when there is no match.
The case-insensitive search runs on the lowercased copy of the text; the
extracted contents come from the original text.  The leftmost match of the
lazy pattern is the first `<answer>` occurrence together with the first
`</answer>` occurrence after it. -/
def extract_answer_from_tags (s : Str) : Option Str :=
  let ls := s.map pyLower
  match strFind answerOpenTag ls with
  | none => none
  | some i =>
    match strFind answerCloseTag (ls.drop (i + answerOpenTag.length)) with
    | none => none
    | some k => some (pyStrip ((s.drop (i + answerOpenTag.length)).take k))

/-! ## Dataset adapters

`qwen_caltech_set/caltech101.py` (class `Caltech101`) and
`hierarchical_datasets/flower102.py` (class `Flowers102`).  The filesystem
and the `.mat`-file contents are oracles; the constructors are modelled as
`Except`-valued functions, ValueError/RuntimeError being the error
outcomes. -/

/-- Lexicographic string comparison by codepoint, Python's string order,
used through `sorted(...)`. -/
def strLe : Str → Str → Bool
  | [], _ => true
  | _ :: _, [] => false
  | c :: s, d :: t => if c = d then strLe s t else decide (c < d)

/-- Insert into a sorted list, keeping order. -/
def pyInsert (s : Str) : List Str → List Str
  | [] => [s]
  | t :: ts => if strLe s t then s :: t :: ts else t :: pyInsert s ts

/-- `sorted(...)` on a directory listing (insertion sort; Python's sort is
a different, stable algorithm, but on a directory listing — distinct
names — the sorted result is the same list). -/
def pySorted : List Str → List Str
  | [] => []
  | s :: ss => pyInsert s (pySorted ss)

/-- The on-disk state visible to `Caltech101.__init__`: whether
`root/caltech101/101_ObjectCategories` exists (the whole of
`_check_integrity`, lines 152–154), the directory listing of that folder,
the is-directory test and per-category file listings.  `contentValid`
records whether the on-disk archive bytes match the dataset's published
checksum; the source never consults it (no checksum verification is
implemented) — it is part of the state model only so that checksum claims
can be stated. -/
structure CaltechFS where
  rootExists : Bool
  listCategories : List Str
  isDir : Str → Bool
  listFiles : Str → List Str
  contentValid : Bool

inductive CalErr
  | valueError
  | runtimeError
deriving DecidableEq

/-- Line 84: the `filename` column of the `split_coop.csv` rows whose
`split` column equals the requested split. -/
def caltechSplitFilenames (split_rows : List (Str × Str)) (sp : Str) : List Str :=
  (split_rows.filter (fun row => row.2 = sp)).map (fun row => row.1)

/-- The sample-collection loop of `Caltech101.__init__` (lines 99–118):
walk the sorted category directories, skip the background class and
non-directories, keep the sorted `.jpg` files, and when a split is active
keep only files whose `category/filename` relative path is in the split
set.  A sample is modelled as its (category, filename) pair (the root
prefix of the stored absolute path carries no information). -/
def caltechSamples (fs : CaltechFS) (split_filenames : Option (List Str)) :
    List (Str × Str) :=
  (pySorted fs.listCategories).flatMap (fun category_name =>
    if category_name = "BACKGROUND_Google".data then []
    else if fs.isDir category_name then
      (pySorted (fs.listFiles category_name)).filterMap (fun filename =>
        if ".jpg".data.isSuffixOf filename then
          match split_filenames with
          | some snames =>
            if (category_name ++ '/' :: filename) ∈ snames then
              some (category_name, filename)
            else none
          | none => some (category_name, filename)
        else none)
    else [])

/-- `Caltech101.__init__` (lines 45–118), with `download=False`: raise
RuntimeError when the integrity check fails (line 60), sort the categories
and remove the background class (`list.remove` raises ValueError when it
is absent), validate the split against train/val/test (line 73, ValueError
otherwise), load the split rows, and collect the samples.  The result is
the (categories, samples) pair. -/
def caltech101_init (fs : CaltechFS) (split_rows : List (Str × Str))
    (split : Option Str) : Except CalErr (List Str × List (Str × Str)) :=
  if fs.rootExists = false then .error .runtimeError
  else
    let cats0 := pySorted fs.listCategories
    if "BACKGROUND_Google".data ∈ cats0 then
      let categories := cats0.erase "BACKGROUND_Google".data
      match split with
      | some sp =>
        if sp ∈ (["train".data, "val".data, "test".data] : List Str) then
          .ok (categories,
            caltechSamples fs (some (caltechSplitFilenames split_rows sp)))
        else .error .valueError
      | none => .ok (categories, caltechSamples fs none)
    else .error .valueError

/-- The on-disk state visible to `Flowers102`: whether the images folder
exists and is a directory, and the result of torchvision
`check_integrity(path, md5)` (file exists with matching md5) for each
(filename, md5) pair. -/
structure FlowerFS where
  imagesFolderOk : Bool
  checkFile : Str → Str → Bool

inductive FlowerErr
  | valueError
  | runtimeError
deriving DecidableEq

/-- `Flowers102._check_integrity` (lines 99–107): the images folder must
exist and the `label` and `setid` entries of `_file_dict` must pass the
md5 check. -/
def flowers_check_integrity (fs : FlowerFS) : Bool :=
  fs.imagesFolderOk
    && fs.checkFile "imagelabels.mat".data "e0620be6f572b9609742df49c70aed4d".data
    && fs.checkFile "setid.mat".data "a5357ecc9cb78c4bef273ce3793fc85c".data

/-- `Flowers102.download` (lines 109–119): a no-op when the data already
passes the integrity check, otherwise the download-and-extract effect on
the disk (an oracle). -/
def flowers_download (downloadEffect : FlowerFS → FlowerFS) (fs : FlowerFS) : FlowerFS :=
  if flowers_check_integrity fs then fs else downloadEffect fs

/-- The `.mat` contents read on success: `setid` maps a split key
(`trnid`/`valid`/`tstid`) to the image-id list, `labelOf` is the
image-id-to-label dict of line 70. -/
structure FlowerData where
  setid : Str → List Nat
  labelOf : Nat → Nat

/-- `_splits_map` (line 42). -/
def flowers_splits_map : List (Str × Str) :=
  [("train".data, "trnid".data), ("val".data, "valid".data), ("test".data, "tstid".data)]

def flowersSplitKey (split : Str) : Str :=
  ((flowers_splits_map.find? (fun p => p.1 = split)).map (fun p => p.2)).getD split

/-- `Flowers102.__init__` (lines 44–78): `verify_str_arg` raises ValueError
for an invalid split, then the optional download runs, then a failed
integrity check raises RuntimeError, then the split's image ids and labels
are loaded.  The result pair is (`_labels`, image ids) — the
`image_%05d.jpg` path formatting adds no information. -/
def flowers102_init (downloadEffect : FlowerFS → FlowerFS) (data : FlowerData)
    (fs : FlowerFS) (split : Str) (download : Bool) :
    Except FlowerErr (List Nat × List Nat) :=
  if split ∈ (["train".data, "val".data, "test".data] : List Str) then
    let fs1 := if download then flowers_download downloadEffect fs else fs
    if flowers_check_integrity fs1 then
      let image_ids := data.setid (flowersSplitKey split)
      .ok (image_ids.map data.labelOf, image_ids)
    else .error .runtimeError
  else .error .valueError

def exceptIsOk {ε α : Type} : Except ε α → Bool
  | .ok _ => true
  | .error _ => false

/-- A Caltech101 on-disk state whose directory layout is intact but whose
data does not match the published checksum. -/
def caltechCorruptFS : CaltechFS where
  rootExists := true
  listCategories := ["BACKGROUND_Google".data, "dalmatian".data]
  isDir := fun _ => true
  listFiles := fun _ => ["image_0001.jpg".data]
  contentValid := false

/-! ### Properties of the normalization pipeline -/

/-! ### Answer-tag extraction (`qwen_bird/baseline.py` lines 22–25) -/

/-- The raw text contains an `<answer>`…`</answer>` pair, case-insensitively:
some occurrence of `<answer>` is followed (at or after its end) by some
occurrence of `</answer>`.  Positions are taken in the lowercased text; the
content between the tags is unrestricted, so it may span newlines. -/
def hasAnswerTags (s : Str) : Prop :=
  ∃ i j, i + answerOpenTag.length ≤ j ∧
    answerOpenTag <+: ((s.map pyLower).drop i) ∧
    answerCloseTag <+: ((s.map pyLower).drop j)

/-! ## Chain-walking hierarchy builders
(`hierarchical_datasets/caltech_test.py`)

`build_conceptnet_hierarchy` (lines 153–186), `build_wikidata_hierarchy`
(lines 299–334) and `build_uby_hierarchy` (lines 482–514) all run the same
loop: `while current and current not in visited and depth < cap`, append one
entry per visited node, follow the parent relation.  The knowledge-base
queries made inside the loop (HTTP calls) are modelled as oracle fields.
Python string sets are modelled as lists (the enumeration the set would
yield, which `list(...)[0]` picks from). -/

/-- One hierarchy entry: (concept name, synonym set, depth, subcategory
count). -/
abbrev HierEntry : Type := Str × List Str × Nat × Nat

/-- The node/data trace of the shared loop shape: starting from `cur`, while
the node is fresh and the depth is below `cap`, look the node up (`lookup`
is total for ConceptNet and UBY; for Wikidata it is the entity fetch, whose
failure breaks the loop), record the node with its data, and move to the
parent given by `nxt`. -/
def chainSteps {γ : Type} (cap : Nat) (lookup : Str → Option γ)
    (nxt : Str → γ → Option Str) :
    Option Str → List Str → Nat → List (Str × γ)
  | none, _, _ => []
  | some u, visited, depth =>
    if u ∉ visited ∧ depth < cap then
      match lookup u with
      | none => []
      | some g => (u, g) :: chainSteps cap lookup nxt (nxt u g) (u :: visited) (depth + 1)
    else []
termination_by _cur _vis depth => cap - depth
decreasing_by simp_wf; omega

/-- Formalization of the claim's description of a chain walk, following the
spec's words: the result is, entry by entry, built from a trace of pairwise
distinct nodes; the entry at position `i` has depth `i`; the first node is
the start node; the trace follows the parent relation; the walk is capped
at `cap` entries, and when it stops short of the cap the next node is
absent, already visited, or fails to resolve. -/
def HierarchySpec {γ : Type} (cap : Nat) (lookup : Str → Option γ)
    (mk : Str → γ → Nat → HierEntry) (nxt : Str → γ → Option Str)
    (start : Str) (res : List HierEntry) : Prop :=
  ∃ steps : List (Str × γ),
    res = (steps.enumFrom 0).map (fun q => mk q.2.1 q.2.2 q.1) ∧
    (∀ i (h : i < res.length), (res.get ⟨i, h⟩).2.2.1 = i) ∧
    (steps.map Prod.fst).Nodup ∧
    res.length ≤ cap ∧
    (∀ p ∈ steps, lookup p.1 = some p.2) ∧
    (∀ p, steps.head? = some p → p.1 = start) ∧
    (steps = [] → lookup start = none) ∧
    List.Chain' (fun a b => nxt a.1 a.2 = some b.1) steps ∧
    (res.length < cap → ∀ p, steps.getLast? = some p →
      nxt p.1 p.2 = none ∨ ∃ v, nxt p.1 p.2 = some v ∧
        (v ∈ steps.map Prod.fst ∨ lookup v = none))

/-- Oracle for `build_conceptnet_hierarchy`: `name` models the concept-name
extraction from the URI (line 164), `synonyms` models
`get_conceptnet_synonyms` (line 167, HTTP), `hyponymCount` models
`get_conceptnet_hyponyms_count` (line 170, HTTP), and `parent` models lines
175–183: the end of the first `/r/IsA` edge out of the node into an English
concept, if any. -/
structure ConceptNetOracle where
  name : Str → Str
  synonyms : Str → List Str
  hyponymCount : Str → Nat
  parent : Str → Option Str

/-- The loop of `build_conceptnet_hierarchy` (lines 160–184):
`while current_uri and current_uri not in visited and depth < 10`. -/
def build_conceptnet_aux (O : ConceptNetOracle) :
    Option Str → List Str → Nat → List HierEntry
  | none, _, _ => []
  | some u, visited, depth =>
    if u ∉ visited ∧ depth < 10 then
      (O.name u, O.synonyms u, depth, O.hyponymCount u) ::
        build_conceptnet_aux O (O.parent u) (u :: visited) (depth + 1)
    else []
termination_by _cur _vis depth => 10 - depth
decreasing_by simp_wf; omega

/-- `build_conceptnet_hierarchy` (lines 153–186). -/
def build_conceptnet_hierarchy (O : ConceptNetOracle) (concept_uri : Str) :
    List HierEntry :=
  build_conceptnet_aux O (some concept_uri) [] 0

def cnMk (O : ConceptNetOracle) (u : Str) (_ : Unit) (depth : Nat) : HierEntry :=
  (O.name u, O.synonyms u, depth, O.hyponymCount u)

def cnNext (O : ConceptNetOracle) (u : Str) (_ : Unit) : Option Str := O.parent u

/-- Oracle for `build_wikidata_hierarchy`: `entity` models
`get_wikidata_entity` together with `get_wikidata_labels_and_aliases` and
the first-`P279`-claim extraction (lines 310–329): `none` when the entity
data is empty, otherwise the label/alias list and the optional superclass
id; `subclassCount` models `get_wikidata_subclass_count` (line 319). -/
structure WikidataOracle where
  entity : Str → Option (List Str × Option Str)
  subclassCount : Str → Nat

/-- The loop of `build_wikidata_hierarchy` (lines 306–332): as ConceptNet,
but with cap 15, and the loop breaks without appending when the entity
lookup comes back empty. -/
def build_wikidata_aux (O : WikidataOracle) :
    Option Str → List Str → Nat → List HierEntry
  | none, _, _ => []
  | some u, visited, depth =>
    if u ∉ visited ∧ depth < 15 then
      match O.entity u with
      | none => []
      | some g =>
        (g.1.headD u, g.1, depth, O.subclassCount u) ::
          build_wikidata_aux O g.2 (u :: visited) (depth + 1)
    else []
termination_by _cur _vis depth => 15 - depth
decreasing_by simp_wf; omega

/-- `build_wikidata_hierarchy` (lines 299–334). -/
def build_wikidata_hierarchy (O : WikidataOracle) (entity_id : Str) : List HierEntry :=
  build_wikidata_aux O (some entity_id) [] 0

def wdMk (O : WikidataOracle) (u : Str) (g : List Str × Option Str) (depth : Nat) :
    HierEntry :=
  (g.1.headD u, g.1, depth, O.subclassCount u)

def wdNext (_ : WikidataOracle) (_ : Str) (g : List Str × Option Str) : Option Str := g.2

/-- Oracle for `build_uby_hierarchy`: `synonyms` models
`get_uby_synset_info` (line 493, HTTP; an empty set on failure),
`hyponymCount` models `get_uby_hyponym_count` (line 498), and `relations`
models `get_uby_semantic_relations` (line 503): the (relation type, target)
pairs, an empty list on failure. -/
structure UbyOracle where
  synonyms : Str → List Str
  hyponymCount : Str → Nat
  relations : Str → List (Str × Str)

/-- Lines 504–509: the first relation whose type is `hypernym` or
`broader`, if any, gives the next node. -/
def uby_next_relation (O : UbyOracle) (u : Str) : Option Str :=
  ((O.relations u).find? (fun rel =>
    (["hypernym".data, "broader".data] : List Str).contains rel.1)).map Prod.snd

/-- The loop of `build_uby_hierarchy` (lines 489–512): cap 15; the concept
name is the first synonym if the synonym set is nonempty, else the node
id. -/
def build_uby_aux (O : UbyOracle) : Option Str → List Str → Nat → List HierEntry
  | none, _, _ => []
  | some u, visited, depth =>
    if u ∉ visited ∧ depth < 15 then
      ((O.synonyms u).headD u, O.synonyms u, depth, O.hyponymCount u) ::
        build_uby_aux O (uby_next_relation O u) (u :: visited) (depth + 1)
    else []
termination_by _cur _vis depth => 15 - depth
decreasing_by simp_wf; omega

/-- `build_uby_hierarchy` (lines 482–514). -/
def build_uby_hierarchy (O : UbyOracle) (entry_id : Str) : List HierEntry :=
  build_uby_aux O (some entry_id) [] 0

def ubyMk (O : UbyOracle) (u : Str) (_ : Unit) (depth : Nat) : HierEntry :=
  ((O.synonyms u).headD u, O.synonyms u, depth, O.hyponymCount u)

def ubyNext (O : UbyOracle) (u : Str) (_ : Unit) : Option Str := uby_next_relation O u

/-! ## Top-level getters: label cleaning and catch-and-fallback
(`hierarchical_datasets/caltech_test.py` lines 80–94, 203–220, 351–371,
554–571, 741–758)

Each getter cleans the label, queries the external source inside a
`try`, and on any exception (or an unsuccessful search) returns the
singleton fallback `[(clean_label, {clean_label}, 0, 0)]`.  The fallible
query bodies are modelled as `Except`-valued oracles. -/

/-- `s.replace('_', ' ')` (single-character replacement). -/
def underscoreToSpace (s : Str) : Str :=
  s.map (fun c => if c = '_' then ' ' else c)

/-- `label.lower().replace('_', ' ')`, shared by all getters. -/
def cleanLabel (label : Str) : Str :=
  underscoreToSpace (label.map pyLower)

/-- The fallback hierarchy `[(clean_label, {clean_label}, 0, 0)]`. -/
def fallbackHierarchy (label : Str) : List HierEntry :=
  [(cleanLabel label, [cleanLabel label], 0, 0)]

/-- Line 87: `concept_uri = f"/c/en/{clean_label.replace(' ', '_')}"`. -/
def conceptUriOf (clean_label : Str) : Str :=
  "/c/en/".data ++ clean_label.map (fun c => if c = ' ' then '_' else c)

/-- `get_conceptnet_hierarchy` (lines 80–94): `query` models the `try`
body — the ConceptNet API traffic of `build_conceptnet_hierarchy` on the
constructed URI. -/
def get_conceptnet_hierarchy {ε : Type} (query : Str → Except ε (List HierEntry))
    (label : Str) : List HierEntry :=
  let clean_label := cleanLabel label
  match query (conceptUriOf clean_label) with
  | .ok h => h
  | .error _ => fallbackHierarchy label

/-- `get_wikidata_hierarchy` (lines 203–220): a failing or empty entity
search, or a failing hierarchy build, all produce the fallback. -/
def get_wikidata_hierarchy {ε : Type} (search : Str → Except ε (Option Str))
    (build : Str → Except ε (List HierEntry)) (label : Str) : List HierEntry :=
  let clean_label := cleanLabel label
  match search clean_label with
  | .error _ => fallbackHierarchy label
  | .ok none => fallbackHierarchy label
  | .ok (some entity_id) =>
    match build entity_id with
    | .ok h => h
    | .error _ => fallbackHierarchy label

/-- `get_uby_hierarchy` (lines 351–371): the lexical-entry search returns a
list of entry ids; an empty list, a raised exception, or a failing build
produce the fallback, otherwise the first entry id is walked. -/
def get_uby_hierarchy {ε : Type} (search : Str → Except ε (List Str))
    (build : Str → Except ε (List HierEntry)) (label : Str) : List HierEntry :=
  match search (cleanLabel label) with
  | .error _ => fallbackHierarchy label
  | .ok [] => fallbackHierarchy label
  | .ok (entry_id :: _) =>
    match build entry_id with
    | .ok h => h
    | .error _ => fallbackHierarchy label

/-- `get_tree_of_life_hierarchy` (lines 554–571): `τ` is the opaque taxon
info returned by the GBIF/OpenTree search. -/
def get_tree_of_life_hierarchy {ε τ : Type} (search : Str → Except ε (Option τ))
    (build : τ → Except ε (List HierEntry)) (label : Str) : List HierEntry :=
  match search (cleanLabel label) with
  | .error _ => fallbackHierarchy label
  | .ok none => fallbackHierarchy label
  | .ok (some taxon_info) =>
    match build taxon_info with
    | .ok h => h
    | .error _ => fallbackHierarchy label

/-- `get_dbpedia_hierarchy` (lines 741–758). -/
def get_dbpedia_hierarchy {ε : Type} (search : Str → Except ε (Option Str))
    (build : Str → Except ε (List HierEntry)) (label : Str) : List HierEntry :=
  let clean_label := cleanLabel label
  match search clean_label with
  | .error _ => fallbackHierarchy label
  | .ok none => fallbackHierarchy label
  | .ok (some resource_uri) =>
    match build resource_uri with
    | .ok h => h
    | .error _ => fallbackHierarchy label

/-! ## WordNet hierarchy builders

Two copies of `get_wordnet_hierarchy` exist:
`hierarchical_datasets/caltech_test.py` lines 27–61 and
`hierarchical_datasets/caltech_wordnet.py` lines 15–49.  They are identical
except for the no-synset fallback: the `caltech_test.py` copy returns the
2-tuple `(clean_label, {clean_label})` (line 44) while the
`caltech_wordnet.py` copy returns the 4-tuple
`(clean_label, {clean_label}, 0, 0)` (line 32, commented
"Return original with 4 values").  Because Python tuples are heterogeneous,
the entry type is modelled as a sum of both shapes.  NLTK is the oracle:
synset handles are an opaque type `ι`. -/

/-- A WordNet hierarchy list element: either the legacy 2-tuple or the
4-tuple shape. -/
inductive WnEntry
  | pair (name : Str) (synonyms : List Str)
  | quad (name : Str) (synonyms : List Str) (depth : Nat) (count : Nat)
deriving DecidableEq

/-- NLTK WordNet oracle: `synsets term` models
`wn.synsets(term, pos=wn.NOUN)`; `hypernymPath s` models
`s.hypernym_paths()[0]`; `nameHead h` models
`h.name().split('.')[0].replace('_', ' ')`; `lemmaNames` models
`h.lemma_names()`; `hyponymClosureCount` models
`len(list(h.closure(lambda s: s.hyponyms())))`. -/
structure WordNetOracle (ι : Type) where
  synsets : Str → List ι
  hypernymPath : ι → List ι
  nameHead : ι → Str
  lemmaNames : ι → List Str
  hyponymClosureCount : ι → Nat

/-- Lines 33–41 of `caltech_test.py` (identically 21–29 of
`caltech_wordnet.py`): take the synsets of the whole cleaned label; when
empty, the synsets of the first single word that has any. -/
def wn_find_synsets {ι : Type} (O : WordNetOracle ι) (clean_label : Str) : List ι :=
  let synsets := O.synsets clean_label
  if synsets.isEmpty then
    match (pySplit clean_label).findSome? (fun word =>
        let s := O.synsets word
        if s.isEmpty then none else some s) with
    | some s => s
    | none => []
  else synsets

/-- The hypernym-path walk shared by both copies (lines 50–59 of
`caltech_test.py`): one 4-tuple per element of the first hypernym path,
most general last visited first in path order, with the enumeration index
as depth. -/
def wn_walk {ι : Type} (O : WordNetOracle ι) (synset : ι) : List WnEntry :=
  ((O.hypernymPath synset).enum).map (fun p =>
    WnEntry.quad (O.nameHead p.2) ((O.lemmaNames p.2).map underscoreToSpace)
      p.1 (O.hyponymClosureCount p.2))

namespace CaltechTest

/-- `get_wordnet_hierarchy` of `caltech_test.py` (lines 27–61): the
no-synset fallback is the 2-tuple `[(clean_label, {clean_label})]`. -/
def get_wordnet_hierarchy {ι : Type} (O : WordNetOracle ι) (label : Str) :
    List WnEntry :=
  let clean_label := cleanLabel label
  match wn_find_synsets O clean_label with
  | [] => [WnEntry.pair clean_label [clean_label]]
  | synset :: _ => wn_walk O synset

end CaltechTest

namespace CaltechWordnet

/-- `get_wordnet_hierarchy` of `caltech_wordnet.py` (lines 15–49): the
no-synset fallback is the 4-tuple `[(clean_label, {clean_label}, 0, 0)]`. -/
def get_wordnet_hierarchy {ι : Type} (O : WordNetOracle ι) (label : Str) :
    List WnEntry :=
  let clean_label := cleanLabel label
  match wn_find_synsets O clean_label with
  | [] => [WnEntry.quad clean_label [clean_label] 0 0]
  | synset :: _ => wn_walk O synset

end CaltechWordnet

/-- A WordNet oracle that knows no synset for any term. -/
def noSynsetOracle : WordNetOracle Unit :=
  ⟨fun _ => [], fun _ => [], fun _ => "".data, fun _ => [], fun _ => 0⟩

/-! ## Evaluation drivers

`qwen_bird/baseline.py` (`evaluate_dataset`, lines 11–76) and
`qwen_bird_open/baseline.py` (main loop, lines 25–40).  The dataset is a
list of samples, each an (opaque) image handle plus an integer class label;
the multimodal model's `predict` call is an oracle function from image and
prompt to output text; `class_names` is the label table.  The text log
written per sample by the closed-set driver (sample index, ground truth,
prediction, correctness) is modelled as a list of records, appended in
iteration order; the run's `(correct, total)` counters are the returned
pair. -/

structure BirdSample where
  image : Nat
  label : Nat

/-- One block written to the output file per sample by
`qwen_bird/baseline.py` lines 67–72 (the running-accuracy line, derivable
from the preceding records, is not modelled). -/
structure PredRecord where
  index : Nat
  ground_truth : Str
  prediction : Str
  correct : Bool

/-- The body of the `for idx, sample in enumerate(dataset)` loop of
`evaluate_dataset` (lines 39–57): predict, look up the ground truth, in
reasoning mode extract the tagged answer (missing tags mean incorrect),
otherwise score the raw prediction. -/
def eval_sample (predict : Nat → Str → Str) (prompt : Str) (class_names : Nat → Str)
    (is_reasoning : Bool) (idx : Nat) (sample : BirdSample) : PredRecord :=
  let prediction := predict sample.image prompt
  let ground_truth := class_names sample.label
  let is_correct :=
    if is_reasoning then
      match extract_answer_from_tags prediction with
      | none => false
      | some a => check_accuracy ground_truth a
    else
      check_accuracy ground_truth prediction
  ⟨idx, ground_truth, prediction, is_correct⟩

/-- The per-sample records appended to the output file, in iteration
order. -/
def evaluate_records (predict : Nat → Str → Str) (prompt : Str) (class_names : Nat → Str)
    (is_reasoning : Bool) (dataset : List BirdSample) : List PredRecord :=
  dataset.enum.map (fun p => eval_sample predict prompt class_names is_reasoning p.1 p.2)

/-- The `(correct, total)` pair returned by `evaluate_dataset`: the loop
increments `total` once per sample and `correct` once per correct sample. -/
def evaluate_dataset (predict : Nat → Str → Str) (prompt : Str) (class_names : Nat → Str)
    (is_reasoning : Bool) (dataset : List BirdSample) : Nat × Nat :=
  ((evaluate_records predict prompt class_names is_reasoning dataset).countP
      (fun r => r.correct),
   (evaluate_records predict prompt class_names is_reasoning dataset).length)

/-- A JSON scalar as dumped by `qwen_bird_open/baseline.py`. -/
inductive JVal
  | str (s : Str)
  | nat (n : Nat)
  | bool (b : Bool)
deriving DecidableEq

/-- A JSON object: key–value pairs. -/
abbrev JObj : Type := List (Str × JVal)

/-- The `results` list of `qwen_bird_open/baseline.py` (lines 22–32): one
dict per sample, in iteration order, with keys `index`, `prediction` and
`ground_truth` — and nothing else; the script computes no correctness. -/
def open_driver_results (predict : Nat → Str → Str) (prompt : Str)
    (class_names : Nat → Str) (dataset : List BirdSample) : List JObj :=
  dataset.enum.map (fun p =>
    [("index".data, JVal.nat p.1),
     ("prediction".data, JVal.str (predict p.2.image prompt)),
     ("ground_truth".data, JVal.str (class_names p.2.label))])

/-! ### Adapter theorems -/

/-! ## Theorems -/

theorem mem_pyInsert (a s : Str) (l : List Str) :
    a ∈ pyInsert s l ↔ (a = s ∨ a ∈ l) := by
  induction l with
  | nil => simp [pyInsert]
  | cons t ts ih =>
    simp only [pyInsert]
    split
    · simp
    · rw [List.mem_cons, ih, List.mem_cons]
      tauto

theorem mem_pySorted (a : Str) (l : List Str) : a ∈ pySorted l ↔ a ∈ l := by
  induction l with
  | nil => simp [pySorted]
  | cons s ss ih => simp [pySorted, mem_pyInsert, ih]

example : normalize_text "Hello,  World!".data = "hello world".data := by decide

example : check_accuracy "Blue Jay".data "I think it is a blue jay!".data = true := by decide

example : label_in_prediction "big cat".data "a cat that is big".data = true := by decide

example : label_in_prediction "cat".data "concatenation".data = false := by decide

example :
    extract_answer_from_tags "so\n<ANSWER>  Blue Jay\n</Answer> tail".data
      = some "Blue Jay".data := by decide

theorem char_toNat_ofNat_lt {n : Nat} (h : n < 55296) : (Char.ofNat n).toNat = n := by
  have hv : n.isValidChar := Or.inl h
  simp only [Char.ofNat, hv, dif_pos, Char.ofNatAux, Char.toNat, UInt32.toNat,
    BitVec.toNat_ofNatLt]

theorem pyLower_not_upper (c : Char) :
    ¬(65 ≤ (pyLower c).toNat ∧ (pyLower c).toNat ≤ 90) := by
  unfold pyLower
  split
  · rename_i h
    rw [char_toNat_ofNat_lt (by omega)]
    omega
  · assumption

theorem pyLower_fix {c : Char} (h : ¬(65 ≤ c.toNat ∧ c.toNat ≤ 90)) : pyLower c = c :=
  if_neg h

theorem isLowerAscii_not_space {c : Char} (h : isLowerAscii c = true) :
    isPySpace c = false := by
  simp only [isLowerAscii, Bool.and_eq_true, decide_eq_true_eq] at h
  simp only [isPySpace, Bool.or_eq_false_iff, decide_eq_false_iff_not]
  omega

theorem pySplitAux_ne_nil : ∀ (s acc : Str), ∀ w ∈ pySplitAux s acc, w ≠ [] := by
  intro s
  induction s with
  | nil =>
    intro acc w hw
    simp only [pySplitAux] at hw
    split at hw
    · simp at hw
    · rename_i hacc
      simp only [List.mem_singleton] at hw
      subst hw
      simp [hacc]
  | cons c rest ih =>
    intro acc w hw
    simp only [pySplitAux] at hw
    split at hw
    · split at hw
      · exact ih [] w hw
      · rename_i hacc
        rcases List.mem_cons.mp hw with h | h
        · subst h; simp [hacc]
        · exact ih [] w h
    · exact ih (c :: acc) w hw

theorem pySplitAux_chars (P : Char → Prop) :
    ∀ (s acc : Str), (∀ c ∈ s, isPySpace c = false → P c) → (∀ c ∈ acc, P c) →
      ∀ w ∈ pySplitAux s acc, ∀ c ∈ w, P c := by
  intro s
  induction s with
  | nil =>
    intro acc _ hacc w hw c hc
    simp only [pySplitAux] at hw
    split at hw
    · simp at hw
    · simp only [List.mem_singleton] at hw
      subst hw
      exact hacc c (List.mem_reverse.mp hc)
  | cons d rest ih =>
    intro acc hs hacc w hw c hc
    simp only [pySplitAux] at hw
    split at hw
    · split at hw
      · exact ih [] (fun x hx h => hs x (by simp [hx]) h) (by simp) w hw c hc
      · rcases List.mem_cons.mp hw with h | h
        · subst h; exact hacc c (List.mem_reverse.mp hc)
        · exact ih [] (fun x hx h => hs x (by simp [hx]) h) (by simp) w h c hc
    · rename_i hd
      refine ih (d :: acc) (fun x hx h => hs x (by simp [hx]) h) ?_ w hw c hc
      intro x hx
      rcases List.mem_cons.mp hx with h | h
      · subst h
        exact hs x (by simp) (by simpa using hd)
      · exact hacc x h

theorem pySplitAux_append : ∀ (w s acc : Str), (∀ c ∈ w, isPySpace c = false) →
    pySplitAux (w ++ s) acc = pySplitAux s (w.reverse ++ acc) := by
  intro w
  induction w with
  | nil => intro s acc _; simp
  | cons c w' ih =>
    intro s acc hw
    have hc : isPySpace c = false := hw c (by simp)
    simp only [List.cons_append, pySplitAux, hc]
    rw [if_neg (by simp)]
    simp only [List.append_eq]
    rw [ih s (c :: acc) (fun x hx => hw x (by simp [hx]))]
    simp

theorem pySplit_spaceJoin : ∀ ws : List Str,
    (∀ w ∈ ws, w ≠ [] ∧ ∀ c ∈ w, isPySpace c = false) → pySplit (spaceJoin ws) = ws := by
  intro ws
  induction ws with
  | nil => intro _; rfl
  | cons w ws ih =>
    intro h
    obtain ⟨hne, hw⟩ := h w (by simp)
    cases ws with
    | nil =>
      show pySplitAux (spaceJoin [w]) [] = [w]
      have : spaceJoin [w] = w ++ [] := by simp [spaceJoin]
      rw [this, pySplitAux_append w [] [] hw]
      simp only [pySplitAux, List.append_nil]
      rw [if_neg (by simp [hne])]
      simp
    | cons w' ws' =>
      show pySplitAux (spaceJoin (w :: w' :: ws')) [] = w :: w' :: ws'
      have : spaceJoin (w :: w' :: ws') = w ++ (' ' :: spaceJoin (w' :: ws')) := rfl
      rw [this, pySplitAux_append w _ [] hw]
      simp only [pySplitAux, isPySpace]
      rw [if_pos (by decide)]
      rw [if_neg (by simp [hne])]
      simp only [List.append_nil, List.reverse_reverse]
      rw [show pySplitAux (spaceJoin (w' :: ws')) [] = pySplit (spaceJoin (w' :: ws')) from rfl]
      rw [ih (fun v hv => h v (by simp [hv]))]

theorem spaceJoin_chars (P : Char → Prop) (hsp : P ' ') :
    ∀ ws : List Str, (∀ w ∈ ws, ∀ c ∈ w, P c) → ∀ c ∈ spaceJoin ws, P c := by
  intro ws
  induction ws with
  | nil => simp [spaceJoin]
  | cons w ws ih =>
    intro h c hc
    cases ws with
    | nil => exact h w (by simp) c hc
    | cons w' ws' =>
      have : spaceJoin (w :: w' :: ws') = w ++ (' ' :: spaceJoin (w' :: ws')) := rfl
      rw [this] at hc
      rcases List.mem_append.mp hc with h1 | h1
      · exact h w (by simp) c h1
      · rcases List.mem_cons.mp h1 with h2 | h2
        · subst h2; exact hsp
        · exact ih (fun v hv => h v (by simp [hv])) c h2

theorem map_fix {α : Type} (f : α → α) :
    ∀ l : List α, (∀ c ∈ l, f c = c) → l.map f = l := by
  intro l
  induction l with
  | nil => intro _; rfl
  | cons c t ih =>
    intro h
    simp only [List.map_cons, h c (by simp)]
    rw [ih (fun x hx => h x (by simp [hx]))]

theorem subNonAlpha_lower_chars (s : Str) :
    ∀ c ∈ subNonAlphaToSpace (s.map pyLower), isPySpace c = false → isLowerAscii c = true := by
  intro c hc hns
  simp only [subNonAlphaToSpace, List.map_map, List.mem_map, Function.comp] at hc
  obtain ⟨a, _, ha⟩ := hc
  by_cases hk : (isAsciiAlpha (pyLower a) || isPySpace (pyLower a)) = true
  · rw [if_pos hk] at ha
    subst ha
    rcases Bool.or_eq_true_iff.mp hk with h | h
    · simp only [isAsciiAlpha, Bool.or_eq_true_iff, Bool.and_eq_true,
        decide_eq_true_eq] at h
      rcases h with h | h
      · simp only [isLowerAscii, Bool.and_eq_true, decide_eq_true_eq]
        exact ⟨h.1, h.2⟩
      · exact absurd h (pyLower_not_upper a)
    · rw [h] at hns; exact absurd hns (by simp)
  · rw [if_neg hk] at ha
    subst ha
    simp [isPySpace] at hns

theorem normalize_words_good (s : Str) :
    ∀ w ∈ pySplit (subNonAlphaToSpace (s.map pyLower)),
      w ≠ [] ∧ ∀ c ∈ w, isLowerAscii c = true := by
  intro w hw
  refine ⟨pySplitAux_ne_nil _ [] w hw, ?_⟩
  exact pySplitAux_chars (fun c => isLowerAscii c = true) _ []
    (fun c hc h => subNonAlpha_lower_chars s c hc h) (by simp) w hw

/-- C9: for every input string, `normalize_text` returns a string that is the
single-space join of a list of nonempty words consisting only of lowercase
ASCII letters (so: no leading or trailing whitespace, no digits or
punctuation, no double spaces), and `normalize_text` is idempotent. -/
theorem normalize_text_canonical_and_idem (s : Str) :
    (∃ ws : List Str, normalize_text s = spaceJoin ws ∧
        ∀ w ∈ ws, w ≠ [] ∧ ∀ c ∈ w, isLowerAscii c = true) ∧
    normalize_text (normalize_text s) = normalize_text s := by
  have hwords := normalize_words_good s
  refine ⟨⟨pySplit (subNonAlphaToSpace (s.map pyLower)), rfl, hwords⟩, ?_⟩
  have hlow : ∀ c ∈ normalize_text s, isLowerAscii c = true ∨ c = ' ' := by
    intro c hc
    refine spaceJoin_chars (fun c => isLowerAscii c = true ∨ c = ' ') (Or.inr rfl) _
      ?_ c hc
    intro w hw c' hc'
    exact Or.inl ((hwords w hw).2 c' hc')
  have h1 : (normalize_text s).map pyLower = normalize_text s := by
    refine map_fix pyLower _ ?_
    intro c hc
    rcases hlow c hc with h | h
    · refine pyLower_fix ?_
      simp only [isLowerAscii, Bool.and_eq_true, decide_eq_true_eq] at h
      omega
    · subst h; rfl
  have h2 : subNonAlphaToSpace (normalize_text s) = normalize_text s := by
    refine map_fix _ _ ?_
    intro c hc
    rcases hlow c hc with h | h
    · rw [if_pos]
      simp only [isLowerAscii, Bool.and_eq_true, decide_eq_true_eq] at h
      simp only [isAsciiAlpha, Bool.or_eq_true_iff, Bool.and_eq_true, decide_eq_true_eq]
      exact Or.inl (Or.inl ⟨h.1, h.2⟩)
    · subst h; rfl
  have h3 : pySplit (normalize_text s) = pySplit (subNonAlphaToSpace (s.map pyLower)) := by
    show pySplit (spaceJoin (pySplit (subNonAlphaToSpace (s.map pyLower)))) = _
    refine pySplit_spaceJoin _ ?_
    intro w hw
    obtain ⟨hne, hl⟩ := hwords w hw
    exact ⟨hne, fun c hc => isLowerAscii_not_space (hl c hc)⟩
  show spaceJoin (pySplit (subNonAlphaToSpace ((normalize_text s).map pyLower)))
      = normalize_text s
  rw [h1, h2, h3]
  rfl

/-- C1: `check_accuracy` is exactly the substring test on normalized texts,
and `label_in_prediction` is word-list membership: for a single-word
normalized label, that word must be an element of the normalized
prediction's word list; for a multi-word normalized label, every one of its
words must be an element of that list (order and adjacency irrelevant). -/
theorem scoring_functions_spec (g p l q : Str) :
    (check_accuracy g p = true ↔ normalize_text g <:+: normalize_text p) ∧
    (∀ w, pySplit (normalize_text l) = [w] →
      (label_in_prediction l q = true ↔ w ∈ pySplit (normalize_text q))) ∧
    (1 < (pySplit (normalize_text l)).length →
      (label_in_prediction l q = true ↔
        ∀ w ∈ pySplit (normalize_text l), w ∈ pySplit (normalize_text q))) := by
  refine ⟨by simp [check_accuracy], ?_, ?_⟩
  · intro w hw
    simp only [label_in_prediction, hw]
    simp [List.contains]
  · intro hlen
    simp only [label_in_prediction]
    rw [if_neg (by omega)]
    simp [List.contains, List.all_eq_true]

theorem strFind_none_spec (pat : Str) :
    ∀ s : Str, strFind pat s = none → ∀ i, pat.isPrefixOf (s.drop i) = false := by
  intro s
  induction s with
  | nil =>
    intro h i
    simp only [strFind] at h
    split at h
    · cases h
    · rename_i hp
      simpa using Bool.not_eq_true _ ▸ hp
  | cons c rest ih =>
    intro h i
    simp only [strFind] at h
    split at h
    · cases h
    · rename_i hp
      have hrest : strFind pat rest = none := Option.map_eq_none'.mp h
      cases i with
      | zero => simpa using Bool.not_eq_true _ ▸ hp
      | succ n =>
        rw [List.drop_succ_cons]
        exact ih hrest n

theorem strFind_some_spec (pat : Str) :
    ∀ (s : Str) (i : Nat), strFind pat s = some i →
      pat.isPrefixOf (s.drop i) = true ∧ ∀ j < i, pat.isPrefixOf (s.drop j) = false := by
  intro s
  induction s with
  | nil =>
    intro i h
    simp only [strFind] at h
    split at h
    · rename_i hp
      cases h
      exact ⟨by simpa using hp, by omega⟩
    · cases h
  | cons c rest ih =>
    intro i h
    simp only [strFind] at h
    split at h
    · rename_i hp
      cases h
      exact ⟨by simpa using hp, by omega⟩
    · rename_i hp
      obtain ⟨n, hn, rfl⟩ := Option.map_eq_some'.mp h
      obtain ⟨h1, h2⟩ := ih n hn
      refine ⟨by simpa [List.drop_succ_cons] using h1, ?_⟩
      intro j hj
      cases j with
      | zero => simpa using Bool.not_eq_true _ ▸ hp
      | succ m =>
        rw [List.drop_succ_cons]
        exact h2 m (by omega)

theorem extract_none_iff (s : Str) :
    extract_answer_from_tags s = none ↔ ¬ hasAnswerTags s := by
  constructor
  · intro hnone
    rintro ⟨i', j', hle, hopen, hclose⟩
    rw [← List.isPrefixOf_iff_prefix] at hopen hclose
    cases ho : strFind answerOpenTag (s.map pyLower) with
    | none => rw [strFind_none_spec _ _ ho i'] at hopen; cases hopen
    | some i =>
      cases hc : strFind answerCloseTag ((s.map pyLower).drop (i + answerOpenTag.length)) with
      | some k =>
        simp only [extract_answer_from_tags, ho, hc] at hnone
        exact Option.noConfusion hnone
      | none =>
        have hmin := (strFind_some_spec _ _ _ ho).2
        have hi : i ≤ i' := by
          by_contra hlt
          push_neg at hlt
          rw [hmin i' hlt] at hopen
          cases hopen
        have hnc := strFind_none_spec _ _ hc (j' - (i + answerOpenTag.length))
        rw [List.drop_drop] at hnc
        have hj : i + answerOpenTag.length + (j' - (i + answerOpenTag.length)) = j' := by
          simp only [answerOpenTag, String.data] at hle ⊢
          omega
        rw [hj] at hnc
        rw [hnc] at hclose
        cases hclose
  · intro hno
    cases ho : strFind answerOpenTag (s.map pyLower) with
    | none => simp [extract_answer_from_tags, ho]
    | some i =>
      cases hc : strFind answerCloseTag ((s.map pyLower).drop (i + answerOpenTag.length)) with
      | none => simp [extract_answer_from_tags, ho, hc]
      | some k =>
        exfalso
        apply hno
        have h1 := (strFind_some_spec _ _ _ ho).1
        have h2 := (strFind_some_spec _ _ _ hc).1
        rw [List.drop_drop] at h2
        exact ⟨i, i + answerOpenTag.length + k, by omega,
          List.isPrefixOf_iff_prefix.mp h1, List.isPrefixOf_iff_prefix.mp h2⟩

theorem extract_some_spec (s r : Str) (h : extract_answer_from_tags s = some r) :
    ∃ i k,
      answerOpenTag <+: ((s.map pyLower).drop i) ∧
      (∀ j < i, ¬ answerOpenTag <+: ((s.map pyLower).drop j)) ∧
      answerCloseTag <+: ((s.map pyLower).drop (i + answerOpenTag.length + k)) ∧
      (∀ j < k, ¬ answerCloseTag <+: ((s.map pyLower).drop (i + answerOpenTag.length + j))) ∧
      r = pyStrip ((s.drop (i + answerOpenTag.length)).take k) := by
  cases ho : strFind answerOpenTag (s.map pyLower) with
  | none => simp [extract_answer_from_tags, ho] at h
  | some i =>
    cases hc : strFind answerCloseTag ((s.map pyLower).drop (i + answerOpenTag.length)) with
    | none => simp [extract_answer_from_tags, ho, hc] at h
    | some k =>
      have hr : r = pyStrip ((s.drop (i + answerOpenTag.length)).take k) := by
        simp only [extract_answer_from_tags, ho, hc] at h
        exact (Option.some.inj h).symm
      obtain ⟨ho1, ho2⟩ := strFind_some_spec _ _ _ ho
      obtain ⟨hc1, hc2⟩ := strFind_some_spec _ _ _ hc
      rw [List.drop_drop] at hc1
      refine ⟨i, k, List.isPrefixOf_iff_prefix.mp ho1, ?_,
        List.isPrefixOf_iff_prefix.mp hc1, ?_, hr⟩
      · intro j hj hpre
        rw [← List.isPrefixOf_iff_prefix] at hpre
        rw [ho2 j hj] at hpre
        cases hpre
      · intro j hj hpre
        rw [← List.isPrefixOf_iff_prefix] at hpre
        have := hc2 j hj
        rw [List.drop_drop] at this
        rw [this] at hpre
        cases hpre

theorem chainSteps_none {γ : Type} (cap : Nat) (lookup : Str → Option γ)
    (nxt : Str → γ → Option Str) (vis : List Str) (d : Nat) :
    chainSteps cap lookup nxt none vis d = [] := by
  simp [chainSteps]

theorem chainSteps_cons {γ : Type} (cap : Nat) (lookup : Str → Option γ)
    (nxt : Str → γ → Option Str) (u : Str) (vis : List Str) (d : Nat)
    (hcond : u ∉ vis ∧ d < cap) (g : γ) (hg : lookup u = some g) :
    chainSteps cap lookup nxt (some u) vis d
      = (u, g) :: chainSteps cap lookup nxt (nxt u g) (u :: vis) (d + 1) := by
  simp [chainSteps, if_pos hcond, hg]

theorem chainSteps_lookup_fail {γ : Type} (cap : Nat) (lookup : Str → Option γ)
    (nxt : Str → γ → Option Str) (u : Str) (vis : List Str) (d : Nat)
    (_hcond : u ∉ vis ∧ d < cap) (hg : lookup u = none) :
    chainSteps cap lookup nxt (some u) vis d = [] := by
  simp [chainSteps, hg]

theorem chainSteps_stopped {γ : Type} (cap : Nat) (lookup : Str → Option γ)
    (nxt : Str → γ → Option Str) (u : Str) (vis : List Str) (d : Nat)
    (hcond : ¬(u ∉ vis ∧ d < cap)) :
    chainSteps cap lookup nxt (some u) vis d = [] := by
  simp only [chainSteps, if_neg hcond]

theorem chainSteps_length {γ : Type} (cap : Nat) (lookup : Str → Option γ)
    (nxt : Str → γ → Option Str) :
    ∀ (cur : Option Str) (vis : List Str) (d : Nat),
      (chainSteps cap lookup nxt cur vis d).length ≤ cap - d := by
  intro cur vis d
  induction cur, vis, d using chainSteps.induct cap lookup nxt with
  | case1 vis d => simp [chainSteps_none]
  | case2 u vis d hcond hg => simp [chainSteps_lookup_fail cap lookup nxt u vis d hcond hg]
  | case3 u vis d hcond g hg ih =>
    rw [chainSteps_cons cap lookup nxt u vis d hcond g hg]
    simp only [List.length_cons]
    omega
  | case4 u vis d hcond => simp [chainSteps_stopped cap lookup nxt u vis d hcond]

theorem chainSteps_nodup_fresh {γ : Type} (cap : Nat) (lookup : Str → Option γ)
    (nxt : Str → γ → Option Str) :
    ∀ (cur : Option Str) (vis : List Str) (d : Nat),
      ((chainSteps cap lookup nxt cur vis d).map Prod.fst).Nodup ∧
      ∀ p ∈ chainSteps cap lookup nxt cur vis d, p.1 ∉ vis ∧ lookup p.1 = some p.2 := by
  intro cur vis d
  induction cur, vis, d using chainSteps.induct cap lookup nxt with
  | case1 vis d => simp [chainSteps_none]
  | case2 u vis d hcond hg => simp [chainSteps_lookup_fail cap lookup nxt u vis d hcond hg]
  | case3 u vis d hcond g hg ih =>
    rw [chainSteps_cons cap lookup nxt u vis d hcond g hg]
    constructor
    · simp only [List.map_cons, List.nodup_cons]
      refine ⟨?_, ih.1⟩
      intro hmem
      obtain ⟨p, hp, hpeq⟩ := List.mem_map.mp hmem
      exact (ih.2 p hp).1 (hpeq ▸ List.mem_cons_self u vis)
    · intro p hp
      rcases List.mem_cons.mp hp with h | h
      · subst h
        exact ⟨hcond.1, hg⟩
      · have hfresh := ih.2 p h
        exact ⟨fun hm => hfresh.1 (List.mem_cons_of_mem _ hm), hfresh.2⟩
  | case4 u vis d hcond => simp [chainSteps_stopped cap lookup nxt u vis d hcond]

theorem chainSteps_head {γ : Type} (cap : Nat) (lookup : Str → Option γ)
    (nxt : Str → γ → Option Str) (v : Str) (vis : List Str) (d : Nat) :
    ∀ p, (chainSteps cap lookup nxt (some v) vis d).head? = some p → p.1 = v := by
  intro p hp
  by_cases hcond : v ∉ vis ∧ d < cap
  · cases hg : lookup v with
    | none =>
      rw [chainSteps_lookup_fail cap lookup nxt v vis d hcond hg] at hp
      cases hp
    | some g =>
      rw [chainSteps_cons cap lookup nxt v vis d hcond g hg] at hp
      cases hp
      rfl
  · rw [chainSteps_stopped cap lookup nxt v vis d hcond] at hp
    cases hp

theorem chainSteps_eq_nil {γ : Type} (cap : Nat) (lookup : Str → Option γ)
    (nxt : Str → γ → Option Str) (v : Str) (vis : List Str) (d : Nat)
    (h : chainSteps cap lookup nxt (some v) vis d = []) :
    v ∈ vis ∨ cap ≤ d ∨ lookup v = none := by
  by_cases hcond : v ∉ vis ∧ d < cap
  · cases hg : lookup v with
    | none => exact Or.inr (Or.inr rfl)
    | some g =>
      rw [chainSteps_cons cap lookup nxt v vis d hcond g hg] at h
      cases h
  · rcases not_and_or.mp hcond with h1 | h1
    · exact Or.inl (not_not.mp h1)
    · exact Or.inr (Or.inl (Nat.le_of_not_lt h1))

theorem chainSteps_chain {γ : Type} (cap : Nat) (lookup : Str → Option γ)
    (nxt : Str → γ → Option Str) :
    ∀ (cur : Option Str) (vis : List Str) (d : Nat),
      List.Chain' (fun a b => nxt a.1 a.2 = some b.1)
        (chainSteps cap lookup nxt cur vis d) := by
  intro cur vis d
  induction cur, vis, d using chainSteps.induct cap lookup nxt with
  | case1 vis d => simp [chainSteps_none]
  | case2 u vis d hcond hg => simp [chainSteps_lookup_fail cap lookup nxt u vis d hcond hg]
  | case3 u vis d hcond g hg ih =>
    rw [chainSteps_cons cap lookup nxt u vis d hcond g hg]
    rw [List.chain'_cons']
    refine ⟨?_, ih⟩
    intro y hy
    cases hn : nxt u g with
    | none =>
      rw [hn, chainSteps_none] at hy
      cases hy
    | some v =>
      rw [hn] at hy
      rw [chainSteps_head cap lookup nxt v (u :: vis) (d + 1) y hy]
  | case4 u vis d hcond => simp [chainSteps_stopped cap lookup nxt u vis d hcond]

theorem chainSteps_stop {γ : Type} (cap : Nat) (lookup : Str → Option γ)
    (nxt : Str → γ → Option Str) :
    ∀ (cur : Option Str) (vis : List Str) (d : Nat),
      (chainSteps cap lookup nxt cur vis d).length + d < cap →
      ∀ p, (chainSteps cap lookup nxt cur vis d).getLast? = some p →
        nxt p.1 p.2 = none ∨ ∃ v, nxt p.1 p.2 = some v ∧
          (v ∈ vis ∨ v ∈ (chainSteps cap lookup nxt cur vis d).map Prod.fst ∨
            lookup v = none) := by
  intro cur vis d
  induction cur, vis, d using chainSteps.induct cap lookup nxt with
  | case1 vis d =>
    intro _ p hp
    rw [chainSteps_none] at hp
    cases hp
  | case2 u vis d hcond hg =>
    intro _ p hp
    rw [chainSteps_lookup_fail cap lookup nxt u vis d hcond hg] at hp
    cases hp
  | case3 u vis d hcond g hg ih =>
    rw [chainSteps_cons cap lookup nxt u vis d hcond g hg]
    intro hlen p hp
    cases hr : chainSteps cap lookup nxt (nxt u g) (u :: vis) (d + 1) with
    | nil =>
      rw [hr] at hp
      have hpu : (u, g) = p := by simpa using hp
      subst hpu
      cases hn : nxt u g with
      | none => exact Or.inl rfl
      | some v =>
        refine Or.inr ⟨v, rfl, ?_⟩
        rw [hn] at hr
        rcases chainSteps_eq_nil cap lookup nxt v (u :: vis) (d + 1) hr with h | h | h
        · rcases List.mem_cons.mp h with h1 | h1
          · subst h1
            right; left
            simp
          · exact Or.inl h1
        · exfalso
          simp only [List.length_cons] at hlen
          omega
        · right; right; exact h
    | cons q rs =>
      rw [hr] at hp
      rw [List.getLast?_cons_cons] at hp
      have hlen' : (chainSteps cap lookup nxt (nxt u g) (u :: vis) (d + 1)).length
          + (d + 1) < cap := by
        rw [hr]
        rw [hr] at hlen
        simp only [List.length_cons] at hlen ⊢
        omega
      rcases ih hlen' p (by rw [hr]; exact hp) with h | ⟨v, hv, h⟩
      · exact Or.inl h
      · refine Or.inr ⟨v, hv, ?_⟩
        rcases h with h | h | h
        · rcases List.mem_cons.mp h with h1 | h1
          · subst h1
            right; left
            simp only [List.map_cons, List.mem_cons]
            exact Or.inl trivial
          · exact Or.inl h1
        · right; left
          simp only [List.map_cons, List.mem_cons]
          right
          rw [hr] at h
          rw [List.map_cons, List.mem_cons] at h
          exact h
        · right; right; exact h
  | case4 u vis d hcond =>
    intro _ p hp
    rw [chainSteps_stopped cap lookup nxt u vis d hcond] at hp
    cases hp

theorem chainSteps_hierarchySpec {γ : Type} (cap : Nat) (lookup : Str → Option γ)
    (mk : Str → γ → Nat → HierEntry) (nxt : Str → γ → Option Str) (start : Str)
    (hcap : 0 < cap) (hmk : ∀ u g n, (mk u g n).2.2.1 = n) (res : List HierEntry)
    (hres : res = ((chainSteps cap lookup nxt (some start) [] 0).enumFrom 0).map
        (fun q => mk q.2.1 q.2.2 q.1)) :
    HierarchySpec cap lookup mk nxt start res := by
  refine ⟨chainSteps cap lookup nxt (some start) [] 0, hres, ?_, ?_, ?_, ?_, ?_, ?_, ?_, ?_⟩
  · intro i h
    have hlen : res.length = (chainSteps cap lookup nxt (some start) [] 0).length := by
      rw [hres]
      simp [List.enumFrom_length]
    rw [List.get_eq_getElem]
    have hi : i < (chainSteps cap lookup nxt (some start) [] 0).length := by
      rw [← hlen]; exact h
    have : res[i] = mk ((chainSteps cap lookup nxt (some start) [] 0)[i]).1
        ((chainSteps cap lookup nxt (some start) [] 0)[i]).2 (0 + i) := by
      subst hres
      rw [List.getElem_map, List.getElem_enumFrom]
    rw [this, hmk]
    omega
  · exact (chainSteps_nodup_fresh cap lookup nxt (some start) [] 0).1
  · rw [hres]
    simp only [List.length_map, List.enumFrom_length]
    have := chainSteps_length cap lookup nxt (some start) [] 0
    omega
  · exact fun p hp => ((chainSteps_nodup_fresh cap lookup nxt (some start) [] 0).2 p hp).2
  · exact chainSteps_head cap lookup nxt start [] 0
  · intro hnil
    rcases chainSteps_eq_nil cap lookup nxt start [] 0 hnil with h | h | h
    · cases h
    · omega
    · exact h
  · exact chainSteps_chain cap lookup nxt (some start) [] 0
  · intro hshort p hp
    have hlen : res.length = (chainSteps cap lookup nxt (some start) [] 0).length := by
      rw [hres]
      simp [List.enumFrom_length]
    rcases chainSteps_stop cap lookup nxt (some start) [] 0
        (by rw [hlen] at hshort; omega) p hp with h | ⟨v, hv, h⟩
    · exact Or.inl h
    · refine Or.inr ⟨v, hv, ?_⟩
      rcases h with h | h | h
      · cases h
      · exact Or.inl h
      · exact Or.inr h

theorem build_conceptnet_aux_eq (O : ConceptNetOracle) :
    ∀ (cur : Option Str) (vis : List Str) (d : Nat),
      build_conceptnet_aux O cur vis d
        = ((chainSteps 10 (fun _ => some ()) (cnNext O) cur vis d).enumFrom d).map
            (fun q => cnMk O q.2.1 q.2.2 q.1) := by
  intro cur vis d
  induction cur, vis, d using build_conceptnet_aux.induct O with
  | case1 vis d => simp [build_conceptnet_aux, chainSteps_none]
  | case2 u vis d hcond ih =>
    have h1 : build_conceptnet_aux O (some u) vis d
        = (O.name u, O.synonyms u, d, O.hyponymCount u) ::
          build_conceptnet_aux O (O.parent u) (u :: vis) (d + 1) := by
      simp [build_conceptnet_aux, if_pos hcond]
    rw [h1, chainSteps_cons 10 (fun _ => some ()) (cnNext O) u vis d hcond () rfl]
    rw [List.enumFrom_cons, List.map_cons, ih]
    rfl
  | case3 u vis d hcond =>
    have h1 : build_conceptnet_aux O (some u) vis d = [] := by
      simp only [build_conceptnet_aux, if_neg hcond]
    rw [h1, chainSteps_stopped 10 (fun _ => some ()) (cnNext O) u vis d hcond]
    rfl

theorem build_wikidata_aux_eq (O : WikidataOracle) :
    ∀ (cur : Option Str) (vis : List Str) (d : Nat),
      build_wikidata_aux O cur vis d
        = ((chainSteps 15 O.entity (wdNext O) cur vis d).enumFrom d).map
            (fun q => wdMk O q.2.1 q.2.2 q.1) := by
  intro cur vis d
  induction cur, vis, d using build_wikidata_aux.induct O with
  | case1 vis d => simp [build_wikidata_aux, chainSteps_none]
  | case2 u vis d hcond hg =>
    have h1 : build_wikidata_aux O (some u) vis d = [] := by
      simp [build_wikidata_aux, if_pos hcond, hg]
    rw [h1, chainSteps_lookup_fail 15 O.entity (wdNext O) u vis d hcond hg]
    rfl
  | case3 u vis d hcond g hg ih =>
    have h1 : build_wikidata_aux O (some u) vis d
        = (g.1.headD u, g.1, d, O.subclassCount u) ::
          build_wikidata_aux O g.2 (u :: vis) (d + 1) := by
      simp [build_wikidata_aux, if_pos hcond, hg]
    rw [h1, chainSteps_cons 15 O.entity (wdNext O) u vis d hcond g hg]
    rw [List.enumFrom_cons, List.map_cons, ih]
    rfl
  | case4 u vis d hcond =>
    have h1 : build_wikidata_aux O (some u) vis d = [] := by
      simp only [build_wikidata_aux, if_neg hcond]
    rw [h1, chainSteps_stopped 15 O.entity (wdNext O) u vis d hcond]
    rfl

theorem build_uby_aux_eq (O : UbyOracle) :
    ∀ (cur : Option Str) (vis : List Str) (d : Nat),
      build_uby_aux O cur vis d
        = ((chainSteps 15 (fun _ => some ()) (ubyNext O) cur vis d).enumFrom d).map
            (fun q => ubyMk O q.2.1 q.2.2 q.1) := by
  intro cur vis d
  induction cur, vis, d using build_uby_aux.induct O with
  | case1 vis d => simp [build_uby_aux, chainSteps_none]
  | case2 u vis d hcond ih =>
    have h1 : build_uby_aux O (some u) vis d
        = ((O.synonyms u).headD u, O.synonyms u, d, O.hyponymCount u) ::
          build_uby_aux O (uby_next_relation O u) (u :: vis) (d + 1) := by
      simp [build_uby_aux, if_pos hcond]
    rw [h1, chainSteps_cons 15 (fun _ => some ()) (ubyNext O) u vis d hcond () rfl]
    rw [List.enumFrom_cons, List.map_cons, ih]
    rfl
  | case3 u vis d hcond =>
    have h1 : build_uby_aux O (some u) vis d = [] := by
      simp only [build_uby_aux, if_neg hcond]
    rw [h1, chainSteps_stopped 15 (fun _ => some ()) (ubyNext O) u vis d hcond]
    rfl

/-- C2: each chain-walking hierarchy builder returns a list, ordered most
specific to most general, in which the entry at position `i` has depth
field `i`, each entry's name and synonyms come from the node visited at
that step, the walk advances along the parent relation, and it stops
exactly when the next node is absent, already visited, or the depth cap
(10 for ConceptNet, 15 for Wikidata and UBY) is reached; for Wikidata a
node whose entity lookup comes back empty counts as absent. -/
theorem hierarchy_builders_spec (O₁ : ConceptNetOracle) (O₂ : WikidataOracle)
    (O₃ : UbyOracle) (s₁ s₂ s₃ : Str) :
    HierarchySpec 10 (fun _ => some ()) (cnMk O₁) (cnNext O₁) s₁
      (build_conceptnet_hierarchy O₁ s₁) ∧
    HierarchySpec 15 O₂.entity (wdMk O₂) (wdNext O₂) s₂
      (build_wikidata_hierarchy O₂ s₂) ∧
    HierarchySpec 15 (fun _ => some ()) (ubyMk O₃) (ubyNext O₃) s₃
      (build_uby_hierarchy O₃ s₃) := by
  refine ⟨?_, ?_, ?_⟩
  · exact chainSteps_hierarchySpec 10 _ (cnMk O₁) (cnNext O₁) s₁ (by omega)
      (fun u g n => rfl) _ (build_conceptnet_aux_eq O₁ (some s₁) [] 0)
  · exact chainSteps_hierarchySpec 15 O₂.entity (wdMk O₂) (wdNext O₂) s₂ (by omega)
      (fun u g n => rfl) _ (build_wikidata_aux_eq O₂ (some s₂) [] 0)
  · exact chainSteps_hierarchySpec 15 _ (ubyMk O₃) (ubyNext O₃) s₃ (by omega)
      (fun u g n => rfl) _ (build_uby_aux_eq O₃ (some s₃) [] 0)

/-- C3: each chain-walking traversal is a total function (defined by
recursion on the remaining depth budget, so it terminates for every
oracle, including cyclic or infinite parent chains), its node trace never
repeats a node, and it returns at most 10 entries for ConceptNet and at
most 15 for Wikidata and UBY. -/
theorem chain_walks_bounded (O₁ : ConceptNetOracle) (O₂ : WikidataOracle)
    (O₃ : UbyOracle) (s₁ s₂ s₃ : Str) :
    (build_conceptnet_hierarchy O₁ s₁).length ≤ 10 ∧
    (build_wikidata_hierarchy O₂ s₂).length ≤ 15 ∧
    (build_uby_hierarchy O₃ s₃).length ≤ 15 ∧
    ((chainSteps 10 (fun _ => some ()) (cnNext O₁) (some s₁) [] 0).map Prod.fst).Nodup ∧
    ((chainSteps 15 O₂.entity (wdNext O₂) (some s₂) [] 0).map Prod.fst).Nodup ∧
    ((chainSteps 15 (fun _ => some ()) (ubyNext O₃) (some s₃) [] 0).map Prod.fst).Nodup := by
  refine ⟨?_, ?_, ?_,
    (chainSteps_nodup_fresh 10 _ (cnNext O₁) (some s₁) [] 0).1,
    (chainSteps_nodup_fresh 15 O₂.entity (wdNext O₂) (some s₂) [] 0).1,
    (chainSteps_nodup_fresh 15 _ (ubyNext O₃) (some s₃) [] 0).1⟩
  · rw [build_conceptnet_hierarchy, build_conceptnet_aux_eq O₁ (some s₁) [] 0]
    simp only [List.length_map, List.enumFrom_length]
    have := chainSteps_length 10 (fun _ => some ()) (cnNext O₁) (some s₁) [] 0
    omega
  · rw [build_wikidata_hierarchy, build_wikidata_aux_eq O₂ (some s₂) [] 0]
    simp only [List.length_map, List.enumFrom_length]
    have := chainSteps_length 15 O₂.entity (wdNext O₂) (some s₂) [] 0
    omega
  · rw [build_uby_hierarchy, build_uby_aux_eq O₃ (some s₃) [] 0]
    simp only [List.length_map, List.enumFrom_length]
    have := chainSteps_length 15 (fun _ => some ()) (ubyNext O₃) (some s₃) [] 0
    omega

/-- C5: every top-level getter catches an exception raised anywhere in its
query body and returns the singleton fallback
`[(clean_label, {clean_label}, 0, 0)]` with the label lower-cased and
underscores replaced by spaces; since the getters are total functions into
`List HierEntry`, no exception propagates. -/
theorem getters_catch_and_fallback {ε τ : Type}
    (queryCN : Str → Except ε (List HierEntry))
    (searchWD : Str → Except ε (Option Str)) (buildWD : Str → Except ε (List HierEntry))
    (searchUBY : Str → Except ε (List Str)) (buildUBY : Str → Except ε (List HierEntry))
    (searchToL : Str → Except ε (Option τ)) (buildToL : τ → Except ε (List HierEntry))
    (searchDBP : Str → Except ε (Option Str)) (buildDBP : Str → Except ε (List HierEntry))
    (label : Str) (e : ε) :
    (queryCN (conceptUriOf (cleanLabel label)) = .error e →
      get_conceptnet_hierarchy queryCN label
        = [(cleanLabel label, [cleanLabel label], 0, 0)]) ∧
    (searchWD (cleanLabel label) = .error e →
      get_wikidata_hierarchy searchWD buildWD label
        = [(cleanLabel label, [cleanLabel label], 0, 0)]) ∧
    (∀ eid, searchWD (cleanLabel label) = .ok (some eid) → buildWD eid = .error e →
      get_wikidata_hierarchy searchWD buildWD label
        = [(cleanLabel label, [cleanLabel label], 0, 0)]) ∧
    (searchUBY (cleanLabel label) = .error e →
      get_uby_hierarchy searchUBY buildUBY label
        = [(cleanLabel label, [cleanLabel label], 0, 0)]) ∧
    (∀ eid rest, searchUBY (cleanLabel label) = .ok (eid :: rest) →
      buildUBY eid = .error e →
      get_uby_hierarchy searchUBY buildUBY label
        = [(cleanLabel label, [cleanLabel label], 0, 0)]) ∧
    (searchToL (cleanLabel label) = .error e →
      get_tree_of_life_hierarchy searchToL buildToL label
        = [(cleanLabel label, [cleanLabel label], 0, 0)]) ∧
    (∀ t, searchToL (cleanLabel label) = .ok (some t) → buildToL t = .error e →
      get_tree_of_life_hierarchy searchToL buildToL label
        = [(cleanLabel label, [cleanLabel label], 0, 0)]) ∧
    (searchDBP (cleanLabel label) = .error e →
      get_dbpedia_hierarchy searchDBP buildDBP label
        = [(cleanLabel label, [cleanLabel label], 0, 0)]) ∧
    (∀ uri, searchDBP (cleanLabel label) = .ok (some uri) → buildDBP uri = .error e →
      get_dbpedia_hierarchy searchDBP buildDBP label
        = [(cleanLabel label, [cleanLabel label], 0, 0)]) := by
  refine ⟨?_, ?_, ?_, ?_, ?_, ?_, ?_, ?_, ?_⟩
  · intro h
    simp [get_conceptnet_hierarchy, h, fallbackHierarchy]
  · intro h
    simp [get_wikidata_hierarchy, h, fallbackHierarchy]
  · intro eid h1 h2
    simp [get_wikidata_hierarchy, h1, h2, fallbackHierarchy]
  · intro h
    simp [get_uby_hierarchy, h, fallbackHierarchy]
  · intro eid rest h1 h2
    simp [get_uby_hierarchy, h1, h2, fallbackHierarchy]
  · intro h
    simp [get_tree_of_life_hierarchy, h, fallbackHierarchy]
  · intro t h1 h2
    simp [get_tree_of_life_hierarchy, h1, h2, fallbackHierarchy]
  · intro h
    simp [get_dbpedia_hierarchy, h, fallbackHierarchy]
  · intro uri h1 h2
    simp [get_dbpedia_hierarchy, h1, h2, fallbackHierarchy]

theorem getters_catch_and_fallback_witness :
    cleanLabel "Snoopy_Dog".data = "snoopy dog".data ∧
    get_conceptnet_hierarchy (fun _ => (.error () : Except Unit (List HierEntry)))
        "Snoopy_Dog".data
      = [(cleanLabel "Snoopy_Dog".data, [cleanLabel "Snoopy_Dog".data], 0, 0)] ∧
    get_wikidata_hierarchy (fun _ => (.error () : Except Unit (Option Str)))
        (fun _ => .ok []) "Snoopy_Dog".data
      = [(cleanLabel "Snoopy_Dog".data, [cleanLabel "Snoopy_Dog".data], 0, 0)] ∧
    get_uby_hierarchy (fun _ => (.ok ["e1".data] : Except Unit (List Str)))
        (fun _ => .error ()) "Snoopy_Dog".data
      = [(cleanLabel "Snoopy_Dog".data, [cleanLabel "Snoopy_Dog".data], 0, 0)] ∧
    get_tree_of_life_hierarchy (fun _ => (.error () : Except Unit (Option Unit)))
        (fun _ => .ok []) "Snoopy_Dog".data
      = [(cleanLabel "Snoopy_Dog".data, [cleanLabel "Snoopy_Dog".data], 0, 0)] ∧
    get_dbpedia_hierarchy (fun _ => (.ok (some "u".data) : Except Unit (Option Str)))
        (fun _ => .error ()) "Snoopy_Dog".data
      = [(cleanLabel "Snoopy_Dog".data, [cleanLabel "Snoopy_Dog".data], 0, 0)] := by
  have h := getters_catch_and_fallback
    (ε := Unit) (τ := Unit)
    (fun _ => (.error () : Except Unit (List HierEntry)))
    (fun _ => (.error () : Except Unit (Option Str))) (fun _ => .ok [])
    (fun _ => (.ok ["e1".data] : Except Unit (List Str))) (fun _ => .error ())
    (fun _ => (.error () : Except Unit (Option Unit))) (fun _ => .ok [])
    (fun _ => (.ok (some "u".data) : Except Unit (Option Str))) (fun _ => .error ())
    "Snoopy_Dog".data ()
  exact ⟨by decide, h.1 rfl, h.2.1 rfl, h.2.2.2.2.1 "e1".data [] rfl rfl,
    h.2.2.2.2.2.1 rfl, h.2.2.2.2.2.2.2.2 "u".data rfl rfl⟩

/-- C4, failing input: on a label with no noun synsets, the
`caltech_test.py` copy of `get_wordnet_hierarchy` returns a 2-tuple entry —
not a 4-tuple as the claim (and the 4-value unpacking loop at line 67 of
the same file, and the fixed `caltech_wordnet.py` copy) require. -/
theorem wordnet_fallback_entry_shapes :
    CaltechTest.get_wordnet_hierarchy noSynsetOracle "dalmatian".data
      = [WnEntry.pair "dalmatian".data ["dalmatian".data]] ∧
    CaltechWordnet.get_wordnet_hierarchy noSynsetOracle "dalmatian".data
      = [WnEntry.quad "dalmatian".data ["dalmatian".data] 0 0] ∧
    ∀ n syn d c, WnEntry.pair "dalmatian".data ["dalmatian".data]
      ≠ WnEntry.quad n syn d c := by
  refine ⟨by decide, by decide, ?_⟩
  intro n syn d c h
  cases h

theorem evaluate_records_length (predict : Nat → Str → Str) (prompt : Str)
    (class_names : Nat → Str) (b : Bool) (dataset : List BirdSample) :
    (evaluate_records predict prompt class_names b dataset).length = dataset.length := by
  simp [evaluate_records, List.enum_length]

theorem evaluate_records_get (predict : Nat → Str → Str) (prompt : Str)
    (class_names : Nat → Str) (b : Bool) (dataset : List BirdSample)
    (k : Nat) (hk : k < dataset.length) :
    (evaluate_records predict prompt class_names b dataset).get ⟨k, by
        rw [evaluate_records_length]; exact hk⟩ =
      eval_sample predict prompt class_names b k dataset[k] := by
  rw [List.get_eq_getElem]
  simp only [evaluate_records, List.getElem_map, List.getElem_enum]

/-- C6, counterexample: a concrete run of the open-world driver whose
single appended record consists of the sample index, the raw output and
the ground truth only — no component of it is a boolean, so the record
does not contain a derived correctness boolean. -/
theorem open_driver_record_no_boolean :
    open_driver_results (fun _ _ => "a dog".data) "p".data (fun _ => "dog".data) [⟨0, 3⟩]
      = [[("index".data, JVal.nat 0),
          ("prediction".data, JVal.str "a dog".data),
          ("ground_truth".data, JVal.str "dog".data)]] ∧
    ∀ r ∈ open_driver_results (fun _ _ => "a dog".data) "p".data
        (fun _ => "dog".data) [⟨0, 3⟩],
      ∀ kv ∈ r, ∀ b : Bool, kv.2 ≠ JVal.bool b := by
  exact ⟨by decide, by decide⟩

/-- C6 as amended: every evaluation driver appends exactly one record per
sample, in iteration order, each holding that sample's index, raw model
output and ground-truth label, and a record once appended is never
modified (the log over an extended dataset is the old log plus one new
record).  The closed-set driver's records additionally hold the derived
correctness boolean; the open-world driver's records hold no correctness
boolean at all. -/
theorem driver_record_logs_spec (predict : Nat → Str → Str) (prompt : Str)
    (class_names : Nat → Str) (b : Bool) (dataset : List BirdSample)
    (s : BirdSample) (k : Nat) (hk : k < dataset.length) :
    (evaluate_records predict prompt class_names b dataset).length = dataset.length ∧
    ((evaluate_records predict prompt class_names b dataset).get ⟨k, by
        rw [evaluate_records_length]; exact hk⟩
      = ⟨k, class_names dataset[k].label, predict dataset[k].image prompt,
          if b then
            match extract_answer_from_tags (predict dataset[k].image prompt) with
            | none => false
            | some a => check_accuracy (class_names dataset[k].label) a
          else check_accuracy (class_names dataset[k].label)
            (predict dataset[k].image prompt)⟩) ∧
    (evaluate_records predict prompt class_names b (dataset ++ [s])
      = evaluate_records predict prompt class_names b dataset
        ++ [eval_sample predict prompt class_names b dataset.length s]) ∧
    (open_driver_results predict prompt class_names dataset).length = dataset.length ∧
    ((open_driver_results predict prompt class_names dataset).get ⟨k, by
        simp only [open_driver_results, List.length_map, List.enum_length]; exact hk⟩
      = [("index".data, JVal.nat k),
         ("prediction".data, JVal.str (predict dataset[k].image prompt)),
         ("ground_truth".data, JVal.str (class_names dataset[k].label))]) ∧
    (open_driver_results predict prompt class_names (dataset ++ [s])
      = open_driver_results predict prompt class_names dataset
        ++ [[("index".data, JVal.nat dataset.length),
             ("prediction".data, JVal.str (predict s.image prompt)),
             ("ground_truth".data, JVal.str (class_names s.label))]]) ∧
    (∀ r ∈ open_driver_results predict prompt class_names dataset,
      ∀ kv ∈ r, ∀ v : Bool, kv.2 ≠ JVal.bool v) := by
  refine ⟨evaluate_records_length predict prompt class_names b dataset, ?_, ?_,
    ?_, ?_, ?_, ?_⟩
  · rw [evaluate_records_get predict prompt class_names b dataset k hk]
    rfl
  · simp only [evaluate_records, List.enum_append, List.map_append]
    congr 1
  · simp [open_driver_results, List.enum_length]
  · rw [List.get_eq_getElem]
    simp only [open_driver_results, List.getElem_map, List.getElem_enum]
  · simp only [open_driver_results, List.enum_append, List.map_append]
    congr 1
  · intro r hr kv hkv v
    simp only [open_driver_results, List.mem_map] at hr
    obtain ⟨p, _, hp⟩ := hr
    subst hp
    rcases List.mem_cons.mp hkv with h | h
    · subst h; intro hc; cases hc
    rcases List.mem_cons.mp h with h1 | h1
    · subst h1; intro hc; cases hc
    rcases List.mem_cons.mp h1 with h2 | h2
    · subst h2; intro hc; cases hc
    · cases h2

theorem driver_record_logs_spec_witness :
    (0 : Nat) < ([⟨5, 2⟩] : List BirdSample).length ∧
    (evaluate_records (fun _ _ => "a cat".data) "p".data (fun _ => "cat".data)
        false [⟨5, 2⟩]).length = 1 ∧
    (open_driver_results (fun _ _ => "a cat".data) "p".data (fun _ => "cat".data)
        [⟨5, 2⟩]).get ⟨0, by decide⟩
      = [("index".data, JVal.nat 0),
         ("prediction".data, JVal.str "a cat".data),
         ("ground_truth".data, JVal.str "cat".data)] := by
  have h := driver_record_logs_spec (fun _ _ => "a cat".data) "p".data
    (fun _ => "cat".data) false [⟨5, 2⟩] ⟨7, 7⟩ 0 (by decide)
  exact ⟨by decide, h.1, h.2.2.2.2.1⟩

/-- C10: in reasoning mode, a sample whose raw model output contains no
`<answer>`…`</answer>` pair is recorded as incorrect while still being
counted in the total, so the reported accuracy is strictly below 1; the
no-pair condition is exactly `extract_answer_from_tags` returning `none`,
where tag matching is case-insensitive (it runs on the lowercased text) and
the content between the tags is arbitrary (it may span newlines); when a
pair is present the extracted answer is the contents between the leftmost
tags, stripped of surrounding whitespace. -/
theorem reasoning_missing_tags_spec (s : Str) (predict : Nat → Str → Str) (prompt : Str)
    (class_names : Nat → Str) (dataset : List BirdSample) (k : Nat)
    (hk : k < dataset.length)
    (hnone : extract_answer_from_tags (predict dataset[k].image prompt) = none) :
    (extract_answer_from_tags s = none ↔ ¬ hasAnswerTags s) ∧
    (∀ r, extract_answer_from_tags s = some r →
      ∃ i n,
        answerOpenTag <+: ((s.map pyLower).drop i) ∧
        (∀ j < i, ¬ answerOpenTag <+: ((s.map pyLower).drop j)) ∧
        answerCloseTag <+: ((s.map pyLower).drop (i + answerOpenTag.length + n)) ∧
        (∀ j < n, ¬ answerCloseTag <+: ((s.map pyLower).drop (i + answerOpenTag.length + j))) ∧
        r = pyStrip ((s.drop (i + answerOpenTag.length)).take n)) ∧
    ((evaluate_records predict prompt class_names true dataset).get ⟨k, by
        rw [evaluate_records_length]; exact hk⟩).correct = false ∧
    (evaluate_dataset predict prompt class_names true dataset).2 = dataset.length ∧
    (evaluate_dataset predict prompt class_names true dataset).1 < dataset.length := by
  refine ⟨extract_none_iff s, fun r h => extract_some_spec s r h, ?_, ?_, ?_⟩
  · rw [evaluate_records_get predict prompt class_names true dataset k hk]
    simp only [eval_sample, hnone, if_true]
  · simp [evaluate_dataset, evaluate_records_length]
  · have hlen := evaluate_records_length predict prompt class_names true dataset
    have hget := evaluate_records_get predict prompt class_names true dataset k hk
    have hfalse :
        ((evaluate_records predict prompt class_names true dataset).get ⟨k, by
          rw [hlen]; exact hk⟩).correct = false := by
      rw [hget]
      simp only [eval_sample, hnone, if_true]
    simp only [evaluate_dataset]
    have hle := List.countP_le_length (fun r => r.correct)
      (l := evaluate_records predict prompt class_names true dataset)
    rw [hlen] at hle
    rcases Nat.lt_or_ge ((evaluate_records predict prompt class_names true
        dataset).countP (fun r => r.correct)) dataset.length with h | h
    · exact h
    · exfalso
      have heq : (evaluate_records predict prompt class_names true dataset).countP
          (fun r => r.correct) = (evaluate_records predict prompt class_names true
            dataset).length := by omega
      have hall := List.countP_eq_length.mp heq
      have hmem : (evaluate_records predict prompt class_names true dataset).get ⟨k, by
          rw [hlen]; exact hk⟩ ∈ evaluate_records predict prompt class_names true dataset := by
        rw [List.get_eq_getElem]
        exact List.getElem_mem _
      have := hall _ hmem
      rw [hfalse] at this
      cases this

theorem reasoning_missing_tags_spec_witness :
    (0 : Nat) < ([⟨0, 0⟩] : List BirdSample).length ∧
    extract_answer_from_tags ((fun _ _ => "there are no tags here".data)
        (([⟨0, 0⟩] : List BirdSample)[0].image) "p".data) = none ∧
    (((evaluate_records (fun _ _ => "there are no tags here".data) "p".data
        (fun _ => "gt".data) true [⟨0, 0⟩]).get ⟨0, by decide⟩).correct = false ∧
      (evaluate_dataset (fun _ _ => "there are no tags here".data) "p".data
        (fun _ => "gt".data) true [⟨0, 0⟩]).1 <
        ([⟨0, 0⟩] : List BirdSample).length) := by
  refine ⟨by decide, by decide, ?_⟩
  have h := reasoning_missing_tags_spec "x".data (fun _ _ => "there are no tags here".data)
    "p".data (fun _ => "gt".data) [⟨0, 0⟩] 0 (by decide) (by decide)
  exact ⟨h.2.2.1, h.2.2.2.2⟩

theorem scoring_functions_spec_witness :
    (pySplit (normalize_text "Cat!".data) = ["cat".data] ∧
      (label_in_prediction "Cat!".data "a tan cat".data = true ↔
        "cat".data ∈ pySplit (normalize_text "a tan cat".data))) ∧
    (1 < (pySplit (normalize_text "big cat".data)).length ∧
      (label_in_prediction "big cat".data "the cat I saw was big".data = true ↔
        ∀ w ∈ pySplit (normalize_text "big cat".data),
          w ∈ pySplit (normalize_text "the cat I saw was big".data))) :=
  ⟨⟨by decide,
    (scoring_functions_spec "x".data "y".data "Cat!".data "a tan cat".data).2.1
      "cat".data (by decide)⟩,
   ⟨by decide,
    (scoring_functions_spec "x".data "y".data "big cat".data
      "the cat I saw was big".data).2.2 (by decide)⟩⟩

theorem caltechSamples_mem (fs : CaltechFS) (osn : Option (List Str)) (cat fn : Str) :
    (cat, fn) ∈ caltechSamples fs osn ↔
      (cat ∈ fs.listCategories ∧ cat ≠ "BACKGROUND_Google".data ∧ fs.isDir cat = true ∧
       fn ∈ fs.listFiles cat ∧ ".jpg".data.isSuffixOf fn = true ∧
       ∀ snames, osn = some snames → (cat ++ '/' :: fn) ∈ snames) := by
  constructor
  · intro h
    simp only [caltechSamples, List.mem_flatMap] at h
    obtain ⟨a, ha, hmem⟩ := h
    by_cases h1 : a = "BACKGROUND_Google".data
    · rw [if_pos h1] at hmem
      cases hmem
    · rw [if_neg h1] at hmem
      by_cases h2 : fs.isDir a = true
      · rw [if_pos h2] at hmem
        simp only [List.mem_filterMap] at hmem
        obtain ⟨f, hf, hsome⟩ := hmem
        by_cases h3 : ".jpg".data.isSuffixOf f = true
        · rw [if_pos h3] at hsome
          cases osn with
          | none =>
            have hpair := Option.some.inj hsome
            have ha2 : a = cat := congrArg Prod.fst hpair
            have hf2 : f = fn := congrArg Prod.snd hpair
            subst ha2
            subst hf2
            refine ⟨(mem_pySorted _ _).mp ha, h1, h2, (mem_pySorted _ _).mp hf, h3, ?_⟩
            intro snames hsn
            cases hsn
          | some snames =>
            change (if (a ++ '/' :: f) ∈ snames then some (a, f) else none)
              = some (cat, fn) at hsome
            by_cases h4 : (a ++ '/' :: f) ∈ snames
            · rw [if_pos h4] at hsome
              have hpair := Option.some.inj hsome
              have ha2 : a = cat := congrArg Prod.fst hpair
              have hf2 : f = fn := congrArg Prod.snd hpair
              subst ha2
              subst hf2
              refine ⟨(mem_pySorted _ _).mp ha, h1, h2, (mem_pySorted _ _).mp hf, h3, ?_⟩
              intro s hs
              cases Option.some.inj hs
              exact h4
            · rw [if_neg h4] at hsome
              cases hsome
        · rw [if_neg h3] at hsome
          cases hsome
      · rw [if_neg h2] at hmem
        cases hmem
  · rintro ⟨hcat, hbg, hdir, hfile, hjpg, hrow⟩
    simp only [caltechSamples, List.mem_flatMap]
    refine ⟨cat, (mem_pySorted _ _).mpr hcat, ?_⟩
    rw [if_neg hbg, if_pos hdir]
    simp only [List.mem_filterMap]
    refine ⟨fn, (mem_pySorted _ _).mpr hfile, ?_⟩
    rw [if_pos hjpg]
    cases osn with
    | none => rfl
    | some snames =>
      show (if (cat ++ '/' :: fn) ∈ snames then some (cat, fn) else none)
        = some (cat, fn)
      rw [if_pos (hrow snames rfl)]

/-- C7: with an intact on-disk layout, constructing the Caltech101 adapter
with split `train`, `val` or `test` yields exactly the `.jpg` files of the
non-background category directories whose `category/filename` relative
path appears in the lookup-file rows for that split; with split `None` all
such `.jpg` files are included; and any other split string makes the
constructor raise ValueError, producing no samples. -/
theorem caltech101_split_spec (fs : CaltechFS) (split_rows : List (Str × Str))
    (hroot : fs.rootExists = true)
    (hbg : "BACKGROUND_Google".data ∈ fs.listCategories) (sp : Str) :
    (sp ∈ (["train".data, "val".data, "test".data] : List Str) →
      caltech101_init fs split_rows (some sp)
        = .ok ((pySorted fs.listCategories).erase "BACKGROUND_Google".data,
            caltechSamples fs (some (caltechSplitFilenames split_rows sp))) ∧
      ∀ cat fn,
        (cat, fn) ∈ caltechSamples fs (some (caltechSplitFilenames split_rows sp)) ↔
          (cat ∈ fs.listCategories ∧ cat ≠ "BACKGROUND_Google".data ∧
           fs.isDir cat = true ∧ fn ∈ fs.listFiles cat ∧
           ".jpg".data.isSuffixOf fn = true ∧
           (cat ++ '/' :: fn) ∈ caltechSplitFilenames split_rows sp)) ∧
    (caltech101_init fs split_rows none
        = .ok ((pySorted fs.listCategories).erase "BACKGROUND_Google".data,
            caltechSamples fs none) ∧
      ∀ cat fn, (cat, fn) ∈ caltechSamples fs none ↔
          (cat ∈ fs.listCategories ∧ cat ≠ "BACKGROUND_Google".data ∧
           fs.isDir cat = true ∧ fn ∈ fs.listFiles cat ∧
           ".jpg".data.isSuffixOf fn = true)) ∧
    (sp ∉ (["train".data, "val".data, "test".data] : List Str) →
      caltech101_init fs split_rows (some sp) = .error CalErr.valueError) := by
  have hbg2 : "BACKGROUND_Google".data ∈ pySorted fs.listCategories :=
    (mem_pySorted _ _).mpr hbg
  refine ⟨?_, ⟨?_, ?_⟩, ?_⟩
  · intro hsp
    constructor
    · simp only [caltech101_init, hroot]
      rw [if_neg (by simp), if_pos hbg2, if_pos hsp]
    · intro cat fn
      rw [caltechSamples_mem fs (some (caltechSplitFilenames split_rows sp)) cat fn]
      constructor
      · rintro ⟨a, b, c, d, e, f⟩
        exact ⟨a, b, c, d, e, f _ rfl⟩
      · rintro ⟨a, b, c, d, e, f⟩
        refine ⟨a, b, c, d, e, ?_⟩
        intro s hs
        cases Option.some.inj hs
        exact f
  · simp only [caltech101_init, hroot]
    rw [if_neg (by simp), if_pos hbg2]
  · intro cat fn
    rw [caltechSamples_mem fs none cat fn]
    constructor
    · rintro ⟨a, b, c, d, e, _⟩
      exact ⟨a, b, c, d, e⟩
    · rintro ⟨a, b, c, d, e⟩
      exact ⟨a, b, c, d, e, fun s hs => by cases hs⟩
  · intro hsp
    simp only [caltech101_init, hroot]
    rw [if_neg (by simp), if_pos hbg2, if_neg hsp]

theorem caltech101_split_spec_witness :
    caltechCorruptFS.rootExists = true ∧
    "BACKGROUND_Google".data ∈ caltechCorruptFS.listCategories ∧
    caltech101_init caltechCorruptFS [("dalmatian/image_0001.jpg".data, "test".data)]
        (some "test".data)
      = .ok ((pySorted caltechCorruptFS.listCategories).erase "BACKGROUND_Google".data,
          caltechSamples caltechCorruptFS
            (some (caltechSplitFilenames
              [("dalmatian/image_0001.jpg".data, "test".data)] "test".data))) ∧
    caltech101_init caltechCorruptFS [] (some "validation".data)
      = .error CalErr.valueError := by
  refine ⟨rfl, by decide, ?_, ?_⟩
  · exact ((caltech101_split_spec caltechCorruptFS
      [("dalmatian/image_0001.jpg".data, "test".data)] rfl (by decide)
      "test".data).1 (by decide)).1
  · exact (caltech101_split_spec caltechCorruptFS [] rfl (by decide)
      "validation".data).2.2 (by decide)

/-- C8, counterexample: the Caltech101 adapter performs no checksum check —
on a state whose directory layout exists but whose data does not match the
published checksum, construction succeeds instead of raising
RuntimeError. -/
theorem caltech_checksum_counterexample :
    caltechCorruptFS.contentValid = false ∧
    exceptIsOk (caltech101_init caltechCorruptFS [] none) = true := by
  exact ⟨rfl, by decide⟩

/-- C8 as amended: the Flowers102 constructor checks integrity by checksum
(md5 of the label and set-id files, plus existence of the images folder)
and, for a valid split, raises RuntimeError exactly when that check fails
after any requested download attempt, succeeding otherwise; the Caltech101
constructor's integrity check is only the existence of the
`101_ObjectCategories` directory (no checksum), and it raises RuntimeError
exactly when that directory is missing. -/
theorem adapter_integrity_error_iff (downloadEffect : FlowerFS → FlowerFS)
    (data : FlowerData) (ffs : FlowerFS) (split : Str) (dl : Bool)
    (hsplit : split ∈ (["train".data, "val".data, "test".data] : List Str))
    (cfs : CaltechFS) (split_rows : List (Str × Str)) (csplit : Option Str) :
    (flowers102_init downloadEffect data ffs split dl = .error FlowerErr.runtimeError ↔
      flowers_check_integrity (if dl then flowers_download downloadEffect ffs else ffs)
        = false) ∧
    (flowers_check_integrity (if dl then flowers_download downloadEffect ffs else ffs)
        = true →
      flowers102_init downloadEffect data ffs split dl
        = .ok ((data.setid (flowersSplitKey split)).map data.labelOf,
            data.setid (flowersSplitKey split))) ∧
    (caltech101_init cfs split_rows csplit = .error CalErr.runtimeError ↔
      cfs.rootExists = false) := by
  refine ⟨?_, ?_, ?_⟩
  · simp only [flowers102_init, if_pos hsplit]
    cases hck : flowers_check_integrity
        (if dl then flowers_download downloadEffect ffs else ffs) with
    | false => simp
    | true => simp
  · intro hck
    simp only [flowers102_init, if_pos hsplit, if_pos hck]
  · cases hroot : cfs.rootExists with
    | false =>
      simp only [caltech101_init]
      rw [hroot]
      simp
    | true =>
      simp only [caltech101_init]
      rw [hroot]
      rw [if_neg (by decide : ¬(true = false))]
      constructor
      · intro h
        exfalso
        by_cases hb : "BACKGROUND_Google".data ∈ pySorted cfs.listCategories
        · rw [if_pos hb] at h
          cases csplit with
          | none => exact Except.noConfusion h
          | some sp =>
            have h' : (if sp ∈ (["train".data, "val".data, "test".data] : List Str) then
                  (Except.ok ((pySorted cfs.listCategories).erase "BACKGROUND_Google".data,
                    caltechSamples cfs (some (caltechSplitFilenames split_rows sp)))
                    : Except CalErr (List Str × List (Str × Str)))
                else .error .valueError) = .error .runtimeError := h
            by_cases hs : sp ∈ (["train".data, "val".data, "test".data] : List Str)
            · rw [if_pos hs] at h'
              exact Except.noConfusion h'
            · rw [if_neg hs] at h'
              simp at h'
        · rw [if_neg hb] at h
          simp at h
      · intro h
        exact absurd h (by simp)

theorem adapter_integrity_error_iff_witness :
    ("train".data : Str) ∈ (["train".data, "val".data, "test".data] : List Str) ∧
    (flowers102_init id ⟨fun _ => [1, 2], fun _ => 0⟩ ⟨false, fun _ _ => false⟩
        "train".data false = .error FlowerErr.runtimeError ↔
      flowers_check_integrity ⟨false, fun _ _ => false⟩ = false) ∧
    (caltech101_init caltechCorruptFS [] none = .error CalErr.runtimeError ↔
      caltechCorruptFS.rootExists = false) := by
  have h := adapter_integrity_error_iff id ⟨fun _ => [1, 2], fun _ => 0⟩
    ⟨false, fun _ _ => false⟩ "train".data false (by decide) caltechCorruptFS [] none
  exact ⟨by decide, h.1, h.2.2⟩

